import Mathlib

/-!
# ct-harvester: the sampling worker of `main.go`

A shallow embedding of `calcRand`, the sampling-target computation, the
sampling loop of `runGetEntries`, `showRawLogEntry` and the file name built by
`showParsedCert`, followed by the properties proved about them.

Conventions.
* `int64` values are `Int`; every `int64` operation of the source is wrapped
  with `wrap64` (two's complement), `uint64` values are `Nat` below `2 ^ 64`.
* `float64` values that occur in the target computation are non-negative and
  are represented exactly as scaled naturals; rounding to the 53-bit
  significand (round to nearest, ties to even) is `rne53`.
* External collaborators (the log client, the leaf decoder, the random source,
  the clock) are fields of `Collab`.
* Observable effects are recorded, in program order, as a `List Event`.
-/

namespace CtHarvester

/-! ## Machine integers -/

/-- Two's complement wrap-around of an `int64` result. -/
def wrap64 (x : Int) : Int :=
  (9223372036854775808 + x) % 18446744073709551616 - 9223372036854775808

/-- Go conversion `int64(u)` of a `uint64` value. -/
def int64OfUint64 (u : Nat) : Int :=
  wrap64 (u : Int)

/-! ## Range sampler: `calcRand` (main.go 233-240) and its caller (115-119) -/

/-- `rand.Int63n(n)`: panics (`none`) when `n <= 0`; otherwise it returns the
draw supplied by the random source, which lies in `[0, n)`. -/
def int63n (n : Int) (draw : Int) : Option Int :=
  if n ≤ 0 then none else some draw

/-- `calcRand(n)` with the draw of `rand.Int63n(n)` made explicit. -/
def calcRand (n : Int) (draw : Int) : Option Int :=
  match int63n n draw with
  | none => none
  | some rnum =>
    if rnum ≥ wrap64 (n - 1000) then some (wrap64 (rnum - 1000)) else some rnum

/-- Lines 116-117 of `runGetEntries`: `getFirst := calcRand(int64(treeSize))`,
`getLast := getFirst + 999`; the pair is what is handed to `GetRawEntries`. -/
def sampleRange (treeSize : Nat) (draw : Int) : Option (Int × Int) :=
  match calcRand (int64OfUint64 treeSize) draw with
  | none => none
  | some getFirst => some (getFirst, wrap64 (getFirst + 999))

/-! ## Sampling target (main.go 90-99): `float64` arithmetic

Every `float64` value of this computation is a non-negative number with a
finite binary expansion; it is represented by a natural number at a fixed
binary scale, so that rounding to 53 significant bits is a function on `Nat`.
-/

/-- Auxiliary for `bitLen`, by recursion on a bound of the argument. -/
def bitLenAux : Nat → Nat → Nat
  | 0, _ => 0
  | fuel + 1, m => if m = 0 then 0 else bitLenAux fuel (m / 2) + 1

/-- Number of binary digits of `m` (`0` for `m = 0`). -/
def bitLen (m : Nat) : Nat :=
  bitLenAux m m

/-- IEEE-754 binary64 rounding of a positive value to 53 significant bits,
round to nearest, ties to even.  The argument and the result are numerators
over the same power of two. -/
def rne53 (m : Nat) : Nat :=
  if m < 9007199254740992 then m
  else
    let s := bitLen m - 53
    let q := m / 2 ^ s
    let r := m % 2 ^ s
    if 2 ^ s < 2 * r ∨ (2 ^ s = 2 * r ∧ q % 2 = 1) then (q + 1) * 2 ^ s else q * 2 ^ s

/-- Go conversion `float64(u)` of a `uint64` value (scale `1`). -/
def float64OfUint64 (u : Nat) : Nat :=
  rne53 u

/-- Numerator of the `float64` constant `0.01`, which is
`5764607523034235 / 2 ^ 59`. -/
def centNumerator : Nat := 5764607523034235

/-- `math.Floor(0.01 * float64(treeSize))` (line 93): the product is rounded
to binary64 at scale `2 ^ 59`, then floored. -/
def onePercentFloor (treeSize : Nat) : Nat :=
  rne53 (float64OfUint64 treeSize * centNumerator) / 576460752303423488

/-- The value of `entriesPerLog` after lines 93-99; it is a whole number.
`int64(entriesPerLog)` is this number (it is below `2 ^ 63`, see
`entriesPerLog_lt`). -/
def entriesPerLog (treeSize : Nat) : Nat :=
  let f := float64OfUint64 treeSize
  let e0 := onePercentFloor treeSize
  let e1 := if e0 < 5000000 then 5000000 else e0
  if e1 > f then f else e1

/-- The sampling target as the specification words it: one percent of the tree
size as a whole number of entries, at least 5,000,000, capped at the tree
size. -/
def targetSpec (treeSize : Nat) : Nat :=
  min (max (treeSize / 100) 5000000) treeSize

/-! ## Data read by the worker

The types below are those of `certificate-transparency-go`, reduced to the
fields `main.go` reads. -/

/-- `ct.ASN1Cert`: DER bytes. -/
structure ASN1Cert where
  data : List Nat
  deriving DecidableEq

/-- `ct.LeafEntry`: one raw leaf returned by `GetRawEntries`. -/
structure LeafEntry where
  leafInput : List Nat
  extraData : List Nat
  deriving DecidableEq

/-- `ct.X509LogEntryType`. -/
def X509LogEntryType : Nat := 0

/-- `ct.PrecertLogEntryType`. -/
def PrecertLogEntryType : Nat := 1

/-- `ct.RawLogEntry`: `timestamp`, `entryType` and `x509Entry` are the fields
of `rle.Leaf.TimestampedEntry` (`x509Entry` is a pointer, `none` is `nil`). -/
structure RawLogEntry where
  index : Int
  timestamp : Nat
  entryType : Nat
  x509Entry : Option ASN1Cert
  cert : ASN1Cert
  chain : List ASN1Cert
  deriving DecidableEq

/-- A Go `error`; `rsp` is the status code and body when the error is a
`client.RspError`. -/
structure GoError where
  msg : String
  rsp : Option (Nat × String)
  deriving DecidableEq

/-- The process-wide option variables set in `main`. -/
structure Config where
  chainOut : Bool
  textOut : Bool
  preOut : Bool
  deriving DecidableEq

/-! ## Observable effects -/

/-- One line written to `outputFile` (`data/output.txt`), by format string. -/
inductive RunLogLine where
  /-- Line 121: "GetRawEntries Error: %s From: %s". -/
  | getRawEntriesError (err : String) (logURI : String)
  /-- Line 128: "No entries returned for logURI: %s". -/
  | noEntriesReturned (logURI : String)
  /-- Line 136: "Index=%d Failed to unmarshal leaf entry: %v". -/
  | failedToUnmarshal (rleIndex : Int) (err : String)
  /-- Line 146: "logURI: %s Finished at: %s Total Entries: %v". -/
  | finished (logURI : String) (now : String) (total : Int)
  /-- Line 164: "Unhandled log entry type %d". -/
  | unhandledEntryType (entryType : Nat)
  deriving DecidableEq

/-- Effects of one worker, in program order. -/
inductive Event where
  /-- Text printed with `fmt.Println`. -/
  | stdout (text : String)
  /-- A line appended to `outputFile`. -/
  | runLog (line : RunLogLine)
  /-- Line 22, `klog.Infof` with the HTTP status and body. -/
  | klogInfo (status : Nat) (body : String)
  /-- Line 24, `klog.Error`. -/
  | klogError (msg : String)
  /-- A call of `logClient.GetSTH`. -/
  | getSTH
  /-- A call of `logClient.GetRawEntries(ctx, first, last)`. -/
  | getRawEntries (first last : Int)
  /-- A call of `showRawCert(cert, timestamp)`, the output sink. -/
  | showRawCert (cert : ASN1Cert) (timestamp : String)
  /-- Progress bar `bar.Set64`. -/
  | barSet (n : Int)
  /-- Progress bar `bar.Finish`. -/
  | barFinish
  deriving DecidableEq

/-- The collaborators of one worker.  `draw k n` is the value returned by the
`k`-th call `rand.Int63n(n)`; `getRawEntries k first last` is the response to
the `k`-th batch fetch (calls are numbered from `0`). -/
structure Collab where
  getSTH : Except GoError Nat
  draw : Nat → Int → Int
  getRawEntries : Nat → Int → Int → Except GoError (List LeafEntry)
  rawLogEntryFromLeaf : Int → LeafEntry → Except GoError RawLogEntry
  timestampKey : Nat → String
  now : String

/-- The output sink calls in a trace, in order. -/
def sinkCalls : List Event → List (ASN1Cert × String)
  | [] => []
  | Event.showRawCert c t :: es => (c, t) :: sinkCalls es
  | _ :: es => sinkCalls es

/-- The lines written to `outputFile` in a trace, in order. -/
def runLogLines : List Event → List RunLogLine
  | [] => []
  | Event.runLog l :: es => l :: runLogLines es
  | _ :: es => runLogLines es

/-- The batch fetches issued in a trace, in order. -/
def fetchCalls : List Event → List (Int × Int)
  | [] => []
  | Event.getRawEntries a b :: es => (a, b) :: fetchCalls es
  | _ :: es => fetchCalls es

/-! ## Entry classifier: `showRawLogEntry` (main.go 150-172) -/

/-- `showRawLogEntry(rle)`; `none` is the nil-pointer panic of `*ts.X509Entry`. -/
def showRawLogEntry (cfg : Config) (c : Collab) (rle : RawLogEntry) : Option (List Event) :=
  let tsFilename := c.timestampKey rle.timestamp
  let chainPart : List Event :=
    if cfg.chainOut then rle.chain.map (fun x => Event.showRawCert x tsFilename) else []
  if rle.entryType = X509LogEntryType then
    match rle.x509Entry with
    | none => none
    | some x => some (Event.showRawCert x tsFilename :: chainPart)
  else if rle.entryType = PrecertLogEntryType then
    if cfg.preOut then some (Event.showRawCert rle.cert tsFilename :: chainPart)
    else some chainPart
  else
    some (Event.runLog (RunLogLine.unhandledEntryType rle.entryType) :: chainPart)

/-! ## Per-log worker: `runGetEntries` (main.go 78-148) -/

/-- `exitWithDetails(err)` (utils.go 19-25). -/
def exitWithDetails (err : GoError) : List Event :=
  match err.rsp with
  | some (status, body) => [Event.klogInfo status body, Event.klogError err.msg]
  | none => [Event.klogError err.msg]

/-- The inner loop, lines 132-140, over the entries from offset `i` on; `none`
is a panic of `showRawLogEntry` (the effects of the interrupted batch are then
not recorded). -/
def processEntries (cfg : Config) (c : Collab) (getFirst : Int) :
    Nat → List LeafEntry → Option (List Event)
  | _, [] => some []
  | i, rawEntry :: rest =>
    let rleIndex := wrap64 (getFirst + (i : Int))
    match c.rawLogEntryFromLeaf rleIndex rawEntry with
    | Except.error err =>
      match processEntries cfg c getFirst (i + 1) rest with
      | none => none
      | some evs => some (Event.runLog (RunLogLine.failedToUnmarshal rleIndex err.msg) :: evs)
    | Except.ok rle =>
      match showRawLogEntry cfg c rle with
      | none => none
      | some shown =>
        match processEntries cfg c getFirst (i + 1) rest with
        | none => none
        | some evs => some (shown ++ evs)

/-- How the sampling loop was left. -/
inductive LoopExit where
  /-- The condition `logReturnedEntries < int64(entriesPerLog)` was false. -/
  | conditionFalse
  /-- The `break` of line 129. -/
  | brokeNoEntries
  /-- The `return` of line 123. -/
  | returnedOnError
  /-- A run-time panic (`rand.Int63n` with `n <= 0`, nil dereference). -/
  | panicked
  deriving DecidableEq

/-- Result of running the sampling loop. -/
structure LoopResult where
  trace : List Event
  exit : LoopExit
  logReturnedEntries : Int
  iterations : Nat
  deriving DecidableEq

/-- The loop of lines 115-144, started with `k` fetches already made and the
given value of `logReturnedEntries`.  `fuel` bounds the number of loop bodies
executed; `none` means the bound was reached with the loop still running.
`logReturnedEntries` never overflows: it stays below the target plus one batch
length. -/
def samplingLoop (cfg : Config) (c : Collab) (logURI : String) (treeSize : Nat) (target : Int) :
    Nat → Nat → Int → Option LoopResult
  | 0, _, logReturnedEntries =>
    if logReturnedEntries < target then none
    else some ⟨[], LoopExit.conditionFalse, logReturnedEntries, 0⟩
  | fuel + 1, k, logReturnedEntries =>
    if logReturnedEntries < target then
      let n := int64OfUint64 treeSize
      match calcRand n (c.draw k n) with
      | none => some ⟨[], LoopExit.panicked, logReturnedEntries, 1⟩
      | some getFirst =>
        let getLast := wrap64 (getFirst + 999)
        match c.getRawEntries k getFirst getLast with
        | Except.error err =>
          some ⟨Event.getRawEntries getFirst getLast
                  :: Event.runLog (RunLogLine.getRawEntriesError err.msg logURI)
                  :: exitWithDetails err,
                LoopExit.returnedOnError, logReturnedEntries, 1⟩
        | Except.ok entries =>
          if entries.length = 0 then
            some ⟨[Event.getRawEntries getFirst getLast,
                   Event.runLog (RunLogLine.noEntriesReturned logURI)],
                  LoopExit.brokeNoEntries, logReturnedEntries, 1⟩
          else
            match processEntries cfg c getFirst 0 entries with
            | none => some ⟨[Event.getRawEntries getFirst getLast],
                            LoopExit.panicked, logReturnedEntries, 1⟩
            | some evs =>
              let total := logReturnedEntries + (entries.length : Int)
              match samplingLoop cfg c logURI treeSize target fuel (k + 1) total with
              | none => none
              | some r =>
                some ⟨Event.getRawEntries getFirst getLast :: (evs ++ Event.barSet total :: r.trace),
                      r.exit, r.logReturnedEntries, r.iterations + 1⟩
    else some ⟨[], LoopExit.conditionFalse, logReturnedEntries, 0⟩

/-- Terminal state of a worker. -/
inductive WorkerExit where
  /-- The `return` of line 87 (no tree head). -/
  | sthFailed
  /-- The `return` of line 123 (batch fetch failed). -/
  | fetchFailed
  /-- Lines 146-147 were reached; `broke` tells whether through `break`. -/
  | finished (broke : Bool)
  /-- A run-time panic. -/
  | panicked
  deriving DecidableEq

/-- Result of one worker. -/
structure WorkerResult where
  trace : List Event
  exit : WorkerExit
  logReturnedEntries : Int
  deriving DecidableEq

/-- `runGetEntries(ctx, logURI)` from line 84 on, for a connected client. -/
def runGetEntries (cfg : Config) (c : Collab) (logURI : String) (fuel : Nat) :
    Option WorkerResult :=
  match c.getSTH with
  | Except.error _ =>
    some ⟨[Event.getSTH, Event.stdout ("STH ERROR FROM: " ++ logURI ++ "\n")],
          WorkerExit.sthFailed, 0⟩
  | Except.ok treeSize =>
    match samplingLoop cfg c logURI treeSize (entriesPerLog treeSize : Int) fuel 0 0 with
    | none => none
    | some r =>
      match r.exit with
      | LoopExit.returnedOnError =>
        some ⟨Event.getSTH :: r.trace, WorkerExit.fetchFailed, r.logReturnedEntries⟩
      | LoopExit.panicked =>
        some ⟨Event.getSTH :: r.trace, WorkerExit.panicked, r.logReturnedEntries⟩
      | LoopExit.brokeNoEntries =>
        some ⟨Event.getSTH :: (r.trace ++
                [Event.runLog (RunLogLine.finished logURI c.now r.logReturnedEntries),
                 Event.barFinish]),
              WorkerExit.finished true, r.logReturnedEntries⟩
      | LoopExit.conditionFalse =>
        some ⟨Event.getSTH :: (r.trace ++
                [Event.runLog (RunLogLine.finished logURI c.now r.logReturnedEntries),
                 Event.barFinish]),
              WorkerExit.finished false, r.logReturnedEntries⟩

/-! ## Text-mode artifact name: `showParsedCert` (main.go 191-196) -/

/-- The verb `%x` of `fmt` applied to a `*big.Int`: lower-case hexadecimal,
with a leading minus sign for a negative value. -/
def fmtHexBigInt (v : Int) : String :=
  (if v < 0 then "-" else "") ++ String.mk (Nat.toDigits 16 v.natAbs)

/-- Two lower-case hexadecimal digits of a byte. -/
def hexByte (b : Nat) : List Char :=
  [Nat.digitChar (b / 16 % 16), Nat.digitChar (b % 16)]

/-- The verb `%x` of `fmt` applied to a `string`: every byte of the string as
two lower-case hexadecimal digits. -/
def fmtHexString (s : String) : String :=
  String.mk ((s.data.flatMap String.utf8EncodeChar).flatMap (fun b => hexByte b.toNat))

/-- Lines 193-194 of `showParsedCert`: the name passed to `os.Create`. -/
def showParsedCertFileName (timestamp : String) (serialNumber : Int) : String :=
  let serial := fmtHexBigInt serialNumber
  "xxx\\" ++ timestamp ++ "-" ++ fmtHexString serial ++ ".pem"

/-- The text-mode name as the specification words it,
`<timestamp>-<serial_hex>.pem` under the output directory. -/
def textNameSpec (timestamp : String) (serialNumber : Int) : String :=
  "xxx\\" ++ timestamp ++ "-" ++ fmtHexBigInt serialNumber ++ ".pem"

/-! ## Derived observations used in the statements -/

/-- Whether the `k`-th loop body ends the loop before any leaf is processed:
the draw panics, the batch fetch fails, or the batch is empty. -/
def fetchStops (c : Collab) (treeSize : Nat) (k : Nat) : Bool :=
  match calcRand (int64OfUint64 treeSize) (c.draw k (int64OfUint64 treeSize)) with
  | none => true
  | some getFirst =>
    match c.getRawEntries k getFirst (wrap64 (getFirst + 999)) with
    | Except.error _ => true
    | Except.ok entries => decide (entries.length = 0)

/-- The decode outcome of every leaf of a batch, with its index
`getFirst + offset`, in batch order. -/
def decodeBatch (c : Collab) (getFirst : Int) (entries : List LeafEntry) :
    List (Int × Except GoError RawLogEntry) :=
  entries.enum.map (fun p =>
    (wrap64 (getFirst + (p.1 : Int)),
     c.rawLogEntryFromLeaf (wrap64 (getFirst + (p.1 : Int))) p.2))

/-- The skip lines owed to the leaves that failed to decode, in batch order. -/
def skippedOf : List (Int × Except GoError RawLogEntry) → List (Int × String)
  | [] => []
  | (idx, Except.error err) :: ds => (idx, err.msg) :: skippedOf ds
  | (_, Except.ok _) :: ds => skippedOf ds

/-- The successfully decoded entries, in batch order. -/
def decodedOf : List (Int × Except GoError RawLogEntry) → List RawLogEntry
  | [] => []
  | (_, Except.error _) :: ds => decodedOf ds
  | (_, Except.ok rle) :: ds => rle :: decodedOf ds

/-- The effects of a batch as the specification words them: one skip line per
leaf that failed to decode, the classifier run on every decoded entry, in
batch order. -/
def batchTrace (cfg : Config) (c : Collab) :
    List (Int × Except GoError RawLogEntry) → List Event
  | [] => []
  | (idx, Except.error err) :: ds =>
    Event.runLog (RunLogLine.failedToUnmarshal idx err.msg) :: batchTrace cfg c ds
  | (_, Except.ok rle) :: ds =>
    (showRawLogEntry cfg c rle).getD [] ++ batchTrace cfg c ds

/-- The "failed to unmarshal" lines of a trace, in order. -/
def failedLines : List Event → List (Int × String)
  | [] => []
  | Event.runLog (RunLogLine.failedToUnmarshal idx msg) :: es => (idx, msg) :: failedLines es
  | _ :: es => failedLines es

/-- A decoded entry on which `showRawLogEntry` does not dereference `nil`. -/
def wellFormed (rle : RawLogEntry) : Prop :=
  rle.entryType = X509LogEntryType → rle.x509Entry ≠ none

instance (rle : RawLogEntry) : Decidable (wellFormed rle) := by
  unfold wellFormed; exact inferInstance

/-! ## Sample collaborators -/

/-- A log of 10,000 entries whose batch fetches return no entries. -/
def emptyLogCollab : Collab where
  getSTH := Except.ok 10000
  draw := fun _ _ => 7
  getRawEntries := fun _ _ _ => Except.ok []
  rawLogEntryFromLeaf := fun _ _ => Except.error ⟨"unused", none⟩
  timestampKey := fun _ => "20240101000000"
  now := "now"

/-- A log whose tree head cannot be fetched. -/
def sthFailCollab : Collab where
  getSTH := Except.error ⟨"connection refused", none⟩
  draw := fun _ _ => 7
  getRawEntries := fun _ _ _ => Except.ok []
  rawLogEntryFromLeaf := fun _ _ => Except.error ⟨"unused", none⟩
  timestampKey := fun _ => "20240101000000"
  now := "now"

/-- A batch of three raw leaves; the second one has no leaf input. -/
def threeLeaves : List LeafEntry :=
  [⟨[1], []⟩, ⟨[], []⟩, ⟨[3], []⟩]

/-- A log of 10,000 entries whose first batch is `threeLeaves`, the second leaf
of which does not decode; later batches are empty. -/
def threeLeafCollab : Collab where
  getSTH := Except.ok 10000
  draw := fun _ _ => 7
  getRawEntries := fun k _ _ =>
    if k = 0 then Except.ok threeLeaves else Except.ok []
  rawLogEntryFromLeaf := fun idx leaf =>
    if leaf.leafInput = [] then Except.error ⟨"failed to unmarshal MerkleTreeLeaf", none⟩
    else Except.ok ⟨idx, 0, X509LogEntryType, some ⟨leaf.leafInput⟩, ⟨leaf.leafInput⟩, []⟩
  timestampKey := fun _ => "20240101000000"
  now := "now"

/-- A log of 500 entries whose batch fetches return no entries. -/
def smallLogCollab : Collab where
  getSTH := Except.ok 500
  draw := fun _ _ => 7
  getRawEntries := fun _ _ _ => Except.ok []
  rawLogEntryFromLeaf := fun _ _ => Except.error ⟨"unused", none⟩
  timestampKey := fun _ => "20240101000000"
  now := "now"

/-- A precertificate entry with a chain of two certificates. -/
def samplePrecert : RawLogEntry :=
  ⟨5, 0, PrecertLogEntryType, none, ⟨[9]⟩, [⟨[1]⟩, ⟨[2]⟩]⟩

/-- A leaf-certificate entry with a chain of two certificates. -/
def sampleLeaf : RawLogEntry :=
  ⟨5, 0, X509LogEntryType, some ⟨[8]⟩, ⟨[8]⟩, [⟨[1]⟩, ⟨[2]⟩]⟩

/-! ## Properties of the range sampler -/

theorem wrap64_of_range (x : Int) (h1 : -9223372036854775808 ≤ x)
    (h2 : x < 9223372036854775808) : wrap64 x = x := by
  unfold wrap64; omega

theorem int64OfUint64_of_lt (u : Nat) (h : u < 9223372036854775808) :
    int64OfUint64 u = (u : Int) := by
  unfold int64OfUint64; exact wrap64_of_range _ (by omega) (by omega)

/-- The value `calcRand` returns for a positive `int64` argument and a draw in
range, without wrap-around. -/
theorem calcRand_eq (n draw : Int) (hn : 0 < n) (hn2 : n < 9223372036854775808)
    (h0 : 0 ≤ draw) (h1 : draw < n) :
    calcRand n draw = some (if draw ≥ n - 1000 then draw - 1000 else draw) := by
  have e1 : wrap64 (n - 1000) = n - 1000 := wrap64_of_range _ (by omega) (by omega)
  have e2 : wrap64 (draw - 1000) = draw - 1000 := wrap64_of_range _ (by omega) (by omega)
  have hn3 : ¬ n ≤ 0 := by omega
  simp only [calcRand, int63n, hn3, if_false, e1, e2]
  split <;> rfl

/-- The pair handed to `GetRawEntries`, without wrap-around. -/
theorem sampleRange_eq (treeSize : Nat) (draw : Int) (hn : 0 < treeSize)
    (hn2 : treeSize < 9223372036854775808) (h0 : 0 ≤ draw) (h1 : draw < (treeSize : Int)) :
    sampleRange treeSize draw =
      some (if draw ≥ (treeSize : Int) - 1000 then draw - 1000 else draw,
            (if draw ≥ (treeSize : Int) - 1000 then draw - 1000 else draw) + 999) := by
  have hc := calcRand_eq (treeSize : Int) draw (by omega) (by omega) h0 h1
  have hw : wrap64 ((if draw ≥ (treeSize : Int) - 1000 then draw - 1000 else draw) + 999) =
      (if draw ≥ (treeSize : Int) - 1000 then draw - 1000 else draw) + 999 := by
    apply wrap64_of_range <;> split <;> omega
  simp only [sampleRange, int64OfUint64_of_lt treeSize hn2, hc, hw]

/-- The range of `sampleRange` is the one the sampling loop computes from the
draw: `getFirst` from `calcRand`, `getLast` as `getFirst + 999`. -/
theorem sampleRange_eq_calcRand (treeSize : Nat) (draw : Int) :
    sampleRange treeSize draw =
      (calcRand (int64OfUint64 treeSize) draw).map
        (fun getFirst => (getFirst, wrap64 (getFirst + 999))) := by
  unfold sampleRange
  cases calcRand (int64OfUint64 treeSize) draw <;> rfl

/-- Range validity from tree size 2000 on: `0 <= first`, `last = first + 999`
and `last < tree_size`. -/
theorem sampleRange_valid_of_ge_2000 (treeSize : Nat) (draw : Int) (hn : 2000 ≤ treeSize)
    (hn2 : treeSize < 9223372036854775808) (h0 : 0 ≤ draw) (h1 : draw < (treeSize : Int)) :
    ∃ first last, sampleRange treeSize draw = some (first, last) ∧
      0 ≤ first ∧ last = first + 999 ∧ last < (treeSize : Int) := by
  refine ⟨_, _, sampleRange_eq treeSize draw (by omega) hn2 h0 h1, ?_, rfl, ?_⟩ <;>
    split <;> omega

/-- C1 (range validity), evaluated at tree size 1001 and draw 1: the draw is
in `[0, 1001)`, the shift branch of `calcRand` is taken and the range handed
to the fetch is `(-999, 0)`, so `0 <= first` fails for a tree size above
1000. -/
theorem C1_sampleRange_1001_negative :
    (0 : Int) ≤ 1 ∧ (1 : Int) < 1001 ∧ sampleRange 1001 1 = some (-999, 0) := by
  refine ⟨by omega, by omega, ?_⟩
  rw [sampleRange_eq 1001 1 (by omega) (by omega) (by omega) (by omega)]
  norm_num

/-! ## Properties of the `float64` model -/

theorem bitLenAux_zero (fuel : Nat) : bitLenAux fuel 0 = 0 := by
  cases fuel <;> simp [bitLenAux]

theorem bitLenAux_spec (fuel : Nat) : ∀ m : Nat, m ≤ fuel → 0 < m →
    0 < bitLenAux fuel m ∧ 2 ^ (bitLenAux fuel m - 1) ≤ m ∧ m < 2 ^ bitLenAux fuel m := by
  induction fuel with
  | zero => intro m h hm; omega
  | succ fuel ih =>
    intro m h hm
    have hne : m ≠ 0 := by omega
    simp only [bitLenAux, hne, if_false]
    rcases Nat.eq_zero_or_pos (m / 2) with h0 | hpos
    · rw [h0, bitLenAux_zero]
      have : m = 1 := by omega
      subst this
      simp
    · obtain ⟨hb, hlo, hhi⟩ := ih (m / 2) (by omega) hpos
      refine ⟨by omega, ?_, ?_⟩
      · have e : bitLenAux fuel (m / 2) + 1 - 1 = (bitLenAux fuel (m / 2) - 1) + 1 := by omega
        rw [e, pow_succ]
        omega
      · rw [pow_succ]
        omega

theorem bitLen_spec (m : Nat) (hm : 0 < m) :
    0 < bitLen m ∧ 2 ^ (bitLen m - 1) ≤ m ∧ m < 2 ^ bitLen m :=
  bitLenAux_spec m m (le_refl m) hm

/-- Shape of a rounded value: quotient and remainder by the unit in the last
place, with the quotient a 53-bit number, rounded down or up. -/
theorem rne53_spec (m : Nat) (hm : 9007199254740992 ≤ m) :
    ∃ s q r, 1 ≤ s ∧ m = q * 2 ^ s + r ∧ r < 2 ^ s ∧ 4503599627370496 ≤ q ∧
      q < 9007199254740992 ∧
      (rne53 m = q * 2 ^ s ∨ (rne53 m = (q + 1) * 2 ^ s ∧ 2 ^ s ≤ 2 * r)) := by
  obtain ⟨hb, hlo, hhi⟩ := bitLen_spec m (by omega)
  have hb54 : 54 ≤ bitLen m := by
    by_contra hcon
    have h53 : bitLen m ≤ 53 := by omega
    have : 2 ^ bitLen m ≤ 2 ^ 53 := Nat.pow_le_pow_right (by norm_num) h53
    norm_num at this
    omega
  have hP : 0 < 2 ^ (bitLen m - 53) := Nat.two_pow_pos _
  have e1 : 2 ^ (bitLen m - 1) = 4503599627370496 * 2 ^ (bitLen m - 53) := by
    have : bitLen m - 1 = 52 + (bitLen m - 53) := by omega
    rw [this, pow_add]; norm_num
  have e2 : 2 ^ bitLen m = 9007199254740992 * 2 ^ (bitLen m - 53) := by
    have : bitLen m = 53 + (bitLen m - 53) := by omega
    rw [this, pow_add]; norm_num
  refine ⟨bitLen m - 53, m / 2 ^ (bitLen m - 53), m % 2 ^ (bitLen m - 53), by omega, ?_, ?_, ?_, ?_, ?_⟩
  · rw [Nat.mul_comm]; exact (Nat.div_add_mod m _).symm
  · exact Nat.mod_lt _ hP
  · rw [Nat.le_div_iff_mul_le hP]; omega
  · rw [Nat.div_lt_iff_lt_mul hP]; omega
  · have hnot : ¬ m < 9007199254740992 := by omega
    simp only [rne53, hnot, if_false]
    split
    · right
      refine ⟨rfl, ?_⟩
      rename_i h
      rcases h with h | ⟨h, _⟩ <;> omega
    · left; rfl

theorem rne53_small (m : Nat) (h : m < 9007199254740992) : rne53 m = m := by
  simp [rne53, h]

/-- Linear form of `rne53_spec`: `X` is the value rounded down, `P` the unit
in the last place. -/
theorem rne53_lin (m : Nat) (hm : 9007199254740992 ≤ m) :
    ∃ X P r, m = X + r ∧ r < P ∧ 2 ≤ P ∧ 4503599627370496 * P ≤ X ∧
      (rne53 m = X ∨ (rne53 m = X + P ∧ P ≤ 2 * r)) := by
  obtain ⟨s, q, r, hs, hm1, hr, hq1, _, hcase⟩ := rne53_spec m hm
  refine ⟨q * 2 ^ s, 2 ^ s, r, hm1, hr, ?_, ?_, ?_⟩
  · calc 2 = 2 ^ 1 := by norm_num
      _ ≤ 2 ^ s := Nat.pow_le_pow_right (by norm_num) hs
  · exact Nat.mul_le_mul_right _ hq1
  · rcases hcase with h | ⟨h, h2⟩
    · left; exact h
    · right; refine ⟨?_, h2⟩
      rw [h]; ring

/-- Rounding never goes below the argument by more than rounding down does,
and never above by a relative step of `2 ^ -53`. -/
theorem rne53_mul_le (m : Nat) :
    rne53 m * 9007199254740992 ≤ m * 9007199254740993 := by
  by_cases hm : m < 9007199254740992
  · rw [rne53_small m hm]; omega
  · obtain ⟨X, P, r, h1, h2, h3, h4, h5⟩ := rne53_lin m (by omega)
    rcases h5 with h | ⟨h, h6⟩ <;> omega

/-- A value that is itself below `2 ^ 53` is never crossed by rounding. -/
theorem rne53_ge_small (a m : Nat) (ha : a ≤ 9007199254740992) (h : a ≤ m) :
    a ≤ rne53 m := by
  by_cases hm : m < 9007199254740992
  · rw [rne53_small m hm]; exact h
  · obtain ⟨X, P, r, h1, h2, h3, h4, h5⟩ := rne53_lin m (by omega)
    rcases h5 with h | ⟨h, h6⟩ <;> omega

/-- A representable value `j * 2 ^ t` below the argument stays below the
rounded value. -/
theorem rne53_ge_of_repr (j t m : Nat) (hj : j < 9007199254740992) (h : j * 2 ^ t ≤ m) :
    j * 2 ^ t ≤ rne53 m := by
  by_cases hm : m < 9007199254740992
  · rw [rne53_small m hm]; exact h
  · obtain ⟨s, q, r, hs, hm1, hr, hq1, hq2, hcase⟩ := rne53_spec m (by omega)
    have hP : 0 < 2 ^ s := Nat.two_pow_pos _
    have key : j * 2 ^ t ≤ q * 2 ^ s := by
      by_cases hts : s ≤ t
      · have e : 2 ^ t = 2 ^ (t - s) * 2 ^ s := by
          rw [← pow_add]; congr 1; omega
        rw [e, ← Nat.mul_assoc] at h ⊢
        apply Nat.mul_le_mul_right
        have hlt : j * 2 ^ (t - s) * 2 ^ s < (q + 1) * 2 ^ s := by
          have : (q + 1) * 2 ^ s = q * 2 ^ s + 2 ^ s := by ring
          omega
        have := Nat.lt_of_mul_lt_mul_right hlt
        omega
      · have e : 2 ^ s = 2 ^ (s - t - 1) * 2 * 2 ^ t := by
          have : s = (s - t - 1) + 1 + t := by omega
          conv_lhs => rw [this]
          rw [pow_add, pow_add]; norm_num
        have h1 : 1 ≤ 2 ^ (s - t - 1) := Nat.two_pow_pos _
        calc j * 2 ^ t ≤ 9007199254740992 * 2 ^ t := Nat.mul_le_mul_right _ (by omega)
          _ = 4503599627370496 * (1 * 2 * 2 ^ t) := by ring
          _ ≤ 4503599627370496 * (2 ^ (s - t - 1) * 2 * 2 ^ t) := by
              apply Nat.mul_le_mul_left
              apply Nat.mul_le_mul_right
              apply Nat.mul_le_mul_right
              exact h1
          _ = 4503599627370496 * 2 ^ s := by rw [e]
          _ ≤ q * 2 ^ s := Nat.mul_le_mul_right _ hq1
    rcases hcase with h | ⟨h, _⟩
    · rw [h]; exact key
    · rw [h]
      have : (q + 1) * 2 ^ s = q * 2 ^ s + 2 ^ s := by ring
      omega

/-- Below `2 ^ 106` the rounding error is at most `2 ^ 52`. -/
theorem rne53_le_add (m : Nat) (hm : m < 81129638414606681695789005144064) :
    rne53 m ≤ m + 4503599627370496 := by
  by_cases hm0 : m < 9007199254740992
  · rw [rne53_small m hm0]; omega
  · obtain ⟨s, q, r, hs, hm1, hr, hq1, hq2, hcase⟩ := rne53_spec m (by omega)
    have hs53 : s ≤ 53 := by
      by_contra hcon
      have h54 : 54 ≤ s := by omega
      have : 2 ^ 54 ≤ 2 ^ s := Nat.pow_le_pow_right (by norm_num) h54
      have h2 : 4503599627370496 * 2 ^ 54 ≤ q * 2 ^ s := Nat.mul_le_mul hq1 this
      norm_num at h2
      omega
    have hP : 2 ^ s ≤ 9007199254740992 := by
      have : 2 ^ s ≤ 2 ^ 53 := Nat.pow_le_pow_right (by norm_num) hs53
      norm_num at this
      exact this
    rcases hcase with h | ⟨h, h2⟩
    · omega
    · have : (q + 1) * 2 ^ s = q * 2 ^ s + 2 ^ s := by ring
      omega

theorem float64OfUint64_exact (u : Nat) (h : u ≤ 9007199254740992) :
    float64OfUint64 u = u := by
  unfold float64OfUint64
  rcases Nat.lt_or_ge u 9007199254740992 with h1 | h1
  · exact rne53_small u h1
  · have : u = 9007199254740992 := by omega
    subst this
    apply Nat.le_antisymm
    · have := rne53_le_add 9007199254740992 (by norm_num)
      obtain ⟨X, P, r, h1, h2, h3, h4, h5⟩ := rne53_lin 9007199254740992 (by omega)
      rcases h5 with h | ⟨h, h6⟩ <;> omega
    · exact rne53_ge_small _ _ (by omega) (le_refl _)

/-- The floored one-percent term never exceeds the converted tree size nor the
tree size itself. -/
theorem onePercentFloor_le (treeSize : Nat) :
    onePercentFloor treeSize ≤ float64OfUint64 treeSize ∧ 2 * onePercentFloor treeSize ≤ treeSize := by
  have h1 := rne53_mul_le treeSize
  have h2 := rne53_mul_le (float64OfUint64 treeSize * centNumerator)
  have h3 : onePercentFloor treeSize * 576460752303423488 ≤
      rne53 (float64OfUint64 treeSize * centNumerator) := by
    unfold onePercentFloor
    exact Nat.div_mul_le_self _ _
  unfold float64OfUint64 centNumerator at *
  constructor <;> omega

/-- For a tree size up to `2 ^ 53` the floored product is the integer
quotient by 100. -/
theorem onePercentFloor_exact (treeSize : Nat) (h : treeSize ≤ 9007199254740992) :
    onePercentFloor treeSize = treeSize / 100 := by
  unfold onePercentFloor
  rw [float64OfUint64_exact treeSize h]
  unfold centNumerator
  have hlo : treeSize / 100 * 2 ^ 59 ≤ rne53 (treeSize * 5764607523034235) := by
    apply rne53_ge_of_repr
    · omega
    · norm_num; omega
  norm_num at hlo
  have hhi := rne53_le_add (treeSize * 5764607523034235) (by omega)
  omega

theorem entriesPerLog_small (treeSize : Nat) (h : treeSize < 5000000) :
    entriesPerLog treeSize = treeSize := by
  have hf := float64OfUint64_exact treeSize (by omega)
  simp only [entriesPerLog, hf]
  split_ifs <;> omega

theorem entriesPerLog_large (treeSize : Nat) (h : 5000000 ≤ treeSize) :
    entriesPerLog treeSize = max (onePercentFloor treeSize) 5000000 := by
  have hf : 5000000 ≤ float64OfUint64 treeSize := rne53_ge_small _ _ (by omega) h
  obtain ⟨h1, h2⟩ := onePercentFloor_le treeSize
  simp only [entriesPerLog]
  split_ifs <;> omega

/-- Structure of the target: the floored product, raised to 5,000,000 and
capped at the tree size. -/
theorem entriesPerLog_eq (treeSize : Nat) :
    entriesPerLog treeSize = min (max (onePercentFloor treeSize) 5000000) treeSize := by
  rcases Nat.lt_or_ge treeSize 5000000 with h | h
  · rw [entriesPerLog_small treeSize h]; omega
  · rw [entriesPerLog_large treeSize h]
    obtain ⟨h1, h2⟩ := onePercentFloor_le treeSize
    omega

/-- The target of a `uint64` tree size fits `int64`. -/
theorem entriesPerLog_lt (treeSize : Nat) (h : treeSize < 18446744073709551616) :
    entriesPerLog treeSize < 9223372036854775808 := by
  rw [entriesPerLog_eq]
  have := (onePercentFloor_le treeSize).2
  omega

theorem entriesPerLog_pos (treeSize : Nat) (h : 0 < treeSize) : 0 < entriesPerLog treeSize := by
  rw [entriesPerLog_eq]
  omega

/-- C2 (sampling target), at tree size `2 ^ 53 + 7`: `float64(treeSize)`
rounds up to `2 ^ 53 + 8`, the floored product is 90071992547410 and this is
the target, whereas one percent of the tree size as a whole number of entries
is 90071992547409. -/
theorem C2_target_differs_above_2_pow_53 :
    entriesPerLog 9007199254740999 = 90071992547410 ∧
      targetSpec 9007199254740999 = 90071992547409 := by
  constructor
  · decide!
  · decide!

/-- C2 (sampling target), amended: the target is the floored `float64`
product raised to 5,000,000 and capped at the tree size; for a tree size up to
`2 ^ 53` it equals `max(tree_size / 100, 5,000,000)` capped at the tree size;
it equals the tree size below 5,000,000 and lies between 5,000,000 and the
tree size from 5,000,000 on. -/
theorem C2_target_amended (treeSize : Nat) :
    entriesPerLog treeSize = min (max (onePercentFloor treeSize) 5000000) treeSize ∧
    (treeSize ≤ 9007199254740992 → entriesPerLog treeSize = targetSpec treeSize) ∧
    (treeSize < 5000000 → entriesPerLog treeSize = treeSize) ∧
    (5000000 ≤ treeSize →
      5000000 ≤ entriesPerLog treeSize ∧ entriesPerLog treeSize ≤ treeSize) := by
  refine ⟨entriesPerLog_eq treeSize, ?_, entriesPerLog_small treeSize, ?_⟩
  · intro h
    rw [entriesPerLog_eq, onePercentFloor_exact treeSize h]
    rfl
  · intro h
    rw [entriesPerLog_eq]
    omega

/-- Witness of `C2_target_amended` at tree sizes 500 and 10,000,000. -/
theorem C2_target_amended_witness :
    entriesPerLog 500 = 500 ∧ entriesPerLog 10000000 = 5000000 := by
  have h1 := C2_target_amended 500
  have h2 := C2_target_amended 10000000
  refine ⟨h1.2.2.1 (by norm_num), ?_⟩
  rw [h2.2.1 (by norm_num)]
  rfl

/-! ## Properties of the entry classifier -/

theorem sinkCalls_append (a b : List Event) : sinkCalls (a ++ b) = sinkCalls a ++ sinkCalls b := by
  induction a with
  | nil => rfl
  | cons e es ih => cases e <;> simp [sinkCalls, ih]

theorem runLogLines_append (a b : List Event) :
    runLogLines (a ++ b) = runLogLines a ++ runLogLines b := by
  induction a with
  | nil => rfl
  | cons e es ih => cases e <;> simp [runLogLines, ih]

theorem fetchCalls_append (a b : List Event) :
    fetchCalls (a ++ b) = fetchCalls a ++ fetchCalls b := by
  induction a with
  | nil => rfl
  | cons e es ih => cases e <;> simp [fetchCalls, ih]

theorem failedLines_append (a b : List Event) :
    failedLines (a ++ b) = failedLines a ++ failedLines b := by
  induction a with
  | nil => rfl
  | cons e es ih =>
    cases e with
    | runLog l => cases l <;> simp [failedLines, ih]
    | _ => simp [failedLines, ih]

theorem sinkCalls_chain (chain : List ASN1Cert) (t : String) :
    sinkCalls (chain.map (fun x => Event.showRawCert x t)) = chain.map (fun x => (x, t)) := by
  induction chain with
  | nil => rfl
  | cons x xs ih => simp [sinkCalls, ih]

theorem runLogLines_chain (chain : List ASN1Cert) (t : String) :
    runLogLines (chain.map (fun x => Event.showRawCert x t)) = [] := by
  induction chain with
  | nil => rfl
  | cons x xs ih => simp [runLogLines, ih]

theorem failedLines_chain (chain : List ASN1Cert) (t : String) :
    failedLines (chain.map (fun x => Event.showRawCert x t)) = [] := by
  induction chain with
  | nil => rfl
  | cons x xs ih => simp [failedLines, ih]

theorem fetchCalls_chain (chain : List ASN1Cert) (t : String) :
    fetchCalls (chain.map (fun x => Event.showRawCert x t)) = [] := by
  induction chain with
  | nil => rfl
  | cons x xs ih => simp [fetchCalls, ih]

/-- The classifier on a precertificate entry. -/
theorem showRawLogEntry_precert (cfg : Config) (c : Collab) (rle : RawLogEntry)
    (h : rle.entryType = PrecertLogEntryType) :
    showRawLogEntry cfg c rle =
      some ((if cfg.preOut then [Event.showRawCert rle.cert (c.timestampKey rle.timestamp)] else [])
        ++ (if cfg.chainOut then
              rle.chain.map (fun x => Event.showRawCert x (c.timestampKey rle.timestamp))
            else [])) := by
  have h1 : ¬ (PrecertLogEntryType = X509LogEntryType) := by decide
  simp only [showRawLogEntry, h, h1, if_false, if_true]
  cases cfg.preOut <;> simp

/-- The classifier on a leaf-certificate entry. -/
theorem showRawLogEntry_x509 (cfg : Config) (c : Collab) (rle : RawLogEntry) (x : ASN1Cert)
    (h : rle.entryType = X509LogEntryType) (hx : rle.x509Entry = some x) :
    showRawLogEntry cfg c rle =
      some (Event.showRawCert x (c.timestampKey rle.timestamp)
        :: (if cfg.chainOut then
              rle.chain.map (fun x => Event.showRawCert x (c.timestampKey rle.timestamp))
            else [])) := by
  simp only [showRawLogEntry, h, if_true, hx]

/-- The classifier on an entry of any other type. -/
theorem showRawLogEntry_other (cfg : Config) (c : Collab) (rle : RawLogEntry)
    (h0 : rle.entryType ≠ X509LogEntryType) (h1 : rle.entryType ≠ PrecertLogEntryType) :
    showRawLogEntry cfg c rle =
      some (Event.runLog (RunLogLine.unhandledEntryType rle.entryType)
        :: (if cfg.chainOut then
              rle.chain.map (fun x => Event.showRawCert x (c.timestampKey rle.timestamp))
            else [])) := by
  simp only [showRawLogEntry, h0, h1, if_false]

/-- The classifier returns on every well-formed entry and writes no
"failed to unmarshal" line. -/
theorem showRawLogEntry_wellFormed (cfg : Config) (c : Collab) (rle : RawLogEntry)
    (h : wellFormed rle) :
    ∃ tr, showRawLogEntry cfg c rle = some tr ∧ failedLines tr = [] ∧ fetchCalls tr = [] := by
  by_cases h0 : rle.entryType = X509LogEntryType
  · cases hx : rle.x509Entry with
    | none => exact absurd hx (h h0)
    | some x =>
      refine ⟨_, showRawLogEntry_x509 cfg c rle x h0 hx, ?_, ?_⟩ <;>
        cases cfg.chainOut <;> simp [failedLines, fetchCalls, failedLines_chain, fetchCalls_chain]
  · by_cases h1 : rle.entryType = PrecertLogEntryType
    · refine ⟨_, showRawLogEntry_precert cfg c rle h1, ?_, ?_⟩ <;>
        cases cfg.chainOut <;> cases cfg.preOut <;>
        simp [failedLines, fetchCalls, failedLines_chain, fetchCalls_chain]
    · refine ⟨_, showRawLogEntry_other cfg c rle h0 h1, ?_, ?_⟩ <;>
        cases cfg.chainOut <;> simp [failedLines, fetchCalls, failedLines_chain, fetchCalls_chain]

/-- C3 (classification of precertificates): on a precertificate entry the
classifier returns; nothing is written to the run log; the output sink is
called for the precertificate exactly when `preOut` is set (once, first), and
then for every certificate of the chain, in chain order with the entry's
timestamp key, exactly when `chainOut` is set. -/
theorem C3_precert_classification (cfg : Config) (c : Collab) (rle : RawLogEntry)
    (h : rle.entryType = PrecertLogEntryType) :
    ∃ tr, showRawLogEntry cfg c rle = some tr ∧
      runLogLines tr = [] ∧
      sinkCalls tr =
        (if cfg.preOut then [(rle.cert, c.timestampKey rle.timestamp)] else []) ++
        (if cfg.chainOut then rle.chain.map (fun x => (x, c.timestampKey rle.timestamp))
         else []) := by
  refine ⟨_, showRawLogEntry_precert cfg c rle h, ?_, ?_⟩
  · rw [runLogLines_append]
    cases cfg.preOut <;> cases cfg.chainOut <;> simp [runLogLines, runLogLines_chain]
  · rw [sinkCalls_append]
    cases cfg.preOut <;> cases cfg.chainOut <;> simp [sinkCalls, sinkCalls_chain]

/-- Witness of `C3_precert_classification`: a precertificate entry with a
chain of two, precertificates excluded and the chain included. -/
theorem C3_precert_classification_witness :
    samplePrecert.entryType = PrecertLogEntryType ∧
    ∃ tr, showRawLogEntry ⟨true, false, false⟩ emptyLogCollab samplePrecert = some tr ∧
      runLogLines tr = [] ∧
      sinkCalls tr =
        (if (⟨true, false, false⟩ : Config).preOut then
          [(samplePrecert.cert, emptyLogCollab.timestampKey samplePrecert.timestamp)] else []) ++
        (if (⟨true, false, false⟩ : Config).chainOut then
          samplePrecert.chain.map
            (fun x => (x, emptyLogCollab.timestampKey samplePrecert.timestamp))
         else []) :=
  ⟨rfl, C3_precert_classification ⟨true, false, false⟩ emptyLogCollab samplePrecert rfl⟩

/-- C4 (chain emission): on a well-formed entry of any type the classifier
returns, and its output sink calls are at most one primary call followed by
the chain: with `chainOut` set, one call per chain certificate, in chain order,
each with the entry's timestamp key; with `chainOut` unset, none.  A
leaf-certificate entry has exactly its certificate as primary call and writes
no run-log line; a precertificate entry has its precertificate as primary call
exactly when `preOut` is set and writes no run-log line; an entry of
unrecognized type has no primary call and writes exactly one "unhandled entry
type" line. -/
theorem C4_chain_emission (cfg : Config) (c : Collab) (rle : RawLogEntry)
    (hwf : wellFormed rle) :
    ∃ tr primary, showRawLogEntry cfg c rle = some tr ∧
      sinkCalls tr = primary ++
        (if cfg.chainOut then rle.chain.map (fun x => (x, c.timestampKey rle.timestamp))
         else []) ∧
      primary.length ≤ 1 ∧
      (rle.entryType = X509LogEntryType →
        ∃ x, rle.x509Entry = some x ∧ primary = [(x, c.timestampKey rle.timestamp)] ∧
          runLogLines tr = []) ∧
      (rle.entryType = PrecertLogEntryType →
        primary = (if cfg.preOut then [(rle.cert, c.timestampKey rle.timestamp)] else []) ∧
          runLogLines tr = []) ∧
      (rle.entryType ≠ X509LogEntryType → rle.entryType ≠ PrecertLogEntryType →
        primary = [] ∧ runLogLines tr = [RunLogLine.unhandledEntryType rle.entryType]) := by
  by_cases h0 : rle.entryType = X509LogEntryType
  · cases hx : rle.x509Entry with
    | none => exact absurd hx (hwf h0)
    | some x =>
      refine ⟨_, [(x, c.timestampKey rle.timestamp)],
        showRawLogEntry_x509 cfg c rle x h0 hx, ?_, by simp, ?_, ?_, ?_⟩
      · cases cfg.chainOut <;> simp [sinkCalls, sinkCalls_chain]
      · intro _
        refine ⟨x, rfl, rfl, ?_⟩
        cases cfg.chainOut <;> simp [runLogLines, runLogLines_chain]
      · intro h1
        rw [h0] at h1
        exact absurd h1 (by decide)
      · intro hne; exact absurd h0 hne
  · by_cases h1 : rle.entryType = PrecertLogEntryType
    · refine ⟨_, (if cfg.preOut then [(rle.cert, c.timestampKey rle.timestamp)] else []),
        showRawLogEntry_precert cfg c rle h1, ?_, ?_, ?_, ?_, ?_⟩
      · rw [sinkCalls_append]
        cases cfg.preOut <;> cases cfg.chainOut <;> simp [sinkCalls, sinkCalls_chain]
      · cases cfg.preOut <;> simp
      · intro h; exact absurd h h0
      · intro _
        refine ⟨rfl, ?_⟩
        rw [runLogLines_append]
        cases cfg.preOut <;> cases cfg.chainOut <;> simp [runLogLines, runLogLines_chain]
      · intro _ hne; exact absurd h1 hne
    · refine ⟨_, [], showRawLogEntry_other cfg c rle h0 h1, ?_, by simp, ?_, ?_, ?_⟩
      · cases cfg.chainOut <;> simp [sinkCalls, sinkCalls_chain]
      · intro h; exact absurd h h0
      · intro h; exact absurd h h1
      · intro _ _
        refine ⟨rfl, ?_⟩
        cases cfg.chainOut <;> simp [runLogLines, runLogLines_chain]

/-- Witness of `C4_chain_emission`: a leaf-certificate entry with a chain of
two and the chain included. -/
theorem C4_chain_emission_witness :
    wellFormed sampleLeaf ∧
    ∃ tr primary, showRawLogEntry ⟨true, false, false⟩ emptyLogCollab sampleLeaf = some tr ∧
      sinkCalls tr = primary ++
        (if (⟨true, false, false⟩ : Config).chainOut then
          sampleLeaf.chain.map (fun x => (x, emptyLogCollab.timestampKey sampleLeaf.timestamp))
         else []) ∧
      primary.length ≤ 1 ∧
      (sampleLeaf.entryType = X509LogEntryType →
        ∃ x, sampleLeaf.x509Entry = some x ∧
          primary = [(x, emptyLogCollab.timestampKey sampleLeaf.timestamp)] ∧
          runLogLines tr = []) ∧
      (sampleLeaf.entryType = PrecertLogEntryType →
        primary = (if (⟨true, false, false⟩ : Config).preOut then
            [(sampleLeaf.cert, emptyLogCollab.timestampKey sampleLeaf.timestamp)] else []) ∧
          runLogLines tr = []) ∧
      (sampleLeaf.entryType ≠ X509LogEntryType → sampleLeaf.entryType ≠ PrecertLogEntryType →
        primary = [] ∧ runLogLines tr = [RunLogLine.unhandledEntryType sampleLeaf.entryType]) :=
  ⟨by decide, C4_chain_emission ⟨true, false, false⟩ emptyLogCollab sampleLeaf (by decide)⟩

/-! ## Properties of the batch loop (main.go 132-140) -/

theorem failedLines_showRawLogEntry (cfg : Config) (c : Collab) (rle : RawLogEntry) :
    failedLines ((showRawLogEntry cfg c rle).getD []) = [] := by
  by_cases h0 : rle.entryType = X509LogEntryType
  · cases hx : rle.x509Entry with
    | none => simp [showRawLogEntry, h0, hx, failedLines]
    | some x =>
      rw [showRawLogEntry_x509 cfg c rle x h0 hx]
      cases cfg.chainOut <;> simp [failedLines, failedLines_chain]
  · by_cases h1 : rle.entryType = PrecertLogEntryType
    · rw [showRawLogEntry_precert cfg c rle h1]
      cases cfg.chainOut <;> cases cfg.preOut <;> simp [failedLines, failedLines_chain]
    · rw [showRawLogEntry_other cfg c rle h0 h1]
      cases cfg.chainOut <;> simp [failedLines, failedLines_chain]

/-- The "failed to unmarshal" lines of a batch are exactly the skip lines owed
to the leaves that failed to decode. -/
theorem failedLines_batchTrace (cfg : Config) (c : Collab)
    (ds : List (Int × Except GoError RawLogEntry)) :
    failedLines (batchTrace cfg c ds) = skippedOf ds := by
  induction ds with
  | nil => rfl
  | cons d ds ih =>
    obtain ⟨idx, res⟩ := d
    cases res with
    | error err => simp [batchTrace, failedLines, skippedOf, ih]
    | ok rle =>
      simp [batchTrace, skippedOf, failedLines_append, failedLines_showRawLogEntry, ih]

theorem skippedOf_length_add (ds : List (Int × Except GoError RawLogEntry)) :
    (skippedOf ds).length + (decodedOf ds).length = ds.length := by
  induction ds with
  | nil => rfl
  | cons d ds ih =>
    obtain ⟨idx, res⟩ := d
    cases res with
    | error err => simp [skippedOf, decodedOf]; omega
    | ok rle => simp [skippedOf, decodedOf]; omega

theorem decodeBatch_length (c : Collab) (getFirst : Int) (entries : List LeafEntry) :
    (decodeBatch c getFirst entries).length = entries.length := by
  simp [decodeBatch, List.enum]

/-- The inner loop from offset `i` on produces the batch trace of the decode
outcomes, provided every decoded entry is well formed. -/
theorem processEntries_enumFrom (cfg : Config) (c : Collab) (getFirst : Int) :
    ∀ (entries : List LeafEntry) (i : Nat),
      (∀ rle ∈ decodedOf ((entries.enumFrom i).map (fun p =>
          (wrap64 (getFirst + (p.1 : Int)),
           c.rawLogEntryFromLeaf (wrap64 (getFirst + (p.1 : Int))) p.2))), wellFormed rle) →
      processEntries cfg c getFirst i entries =
        some (batchTrace cfg c ((entries.enumFrom i).map (fun p =>
          (wrap64 (getFirst + (p.1 : Int)),
           c.rawLogEntryFromLeaf (wrap64 (getFirst + (p.1 : Int))) p.2)))) := by
  intro entries
  induction entries with
  | nil => intro i _; rfl
  | cons a l ih =>
    intro i hwf
    simp only [List.enumFrom_cons, List.map_cons] at hwf ⊢
    cases hdec : c.rawLogEntryFromLeaf (wrap64 (getFirst + (i : Int))) a with
    | error err =>
      rw [hdec] at hwf
      simp only [decodedOf] at hwf
      simp only [processEntries, hdec, ih (i + 1) hwf, batchTrace]
    | ok rle =>
      rw [hdec] at hwf
      simp only [decodedOf, List.mem_cons, forall_eq_or_imp] at hwf
      obtain ⟨tr, htr, _, _⟩ := showRawLogEntry_wellFormed cfg c rle hwf.1
      simp only [processEntries, hdec, htr, ih (i + 1) hwf.2, batchTrace, Option.getD_some]

theorem processEntries_eq (cfg : Config) (c : Collab) (getFirst : Int) (entries : List LeafEntry)
    (hwf : ∀ rle ∈ decodedOf (decodeBatch c getFirst entries), wellFormed rle) :
    processEntries cfg c getFirst 0 entries =
      some (batchTrace cfg c (decodeBatch c getFirst entries)) :=
  processEntries_enumFrom cfg c getFirst entries 0 hwf

/-- The inner loop issues no batch fetch. -/
theorem fetchCalls_processEntries (cfg : Config) (c : Collab) (getFirst : Int) :
    ∀ (entries : List LeafEntry) (i : Nat) (evs : List Event),
      processEntries cfg c getFirst i entries = some evs → fetchCalls evs = [] := by
  intro entries
  induction entries with
  | nil => intro i evs h; simp [processEntries] at h; subst h; rfl
  | cons a l ih =>
    intro i evs h
    simp only [processEntries] at h
    cases hdec : c.rawLogEntryFromLeaf (wrap64 (getFirst + (i : Int))) a with
    | error err =>
      simp only [hdec] at h
      cases hrest : processEntries cfg c getFirst (i + 1) l with
      | none => rw [hrest] at h; simp at h
      | some rest =>
        rw [hrest] at h
        simp at h
        subst h
        simp [fetchCalls, ih (i + 1) rest hrest]
    | ok rle =>
      simp only [hdec] at h
      cases hshow : showRawLogEntry cfg c rle with
      | none => rw [hshow] at h; simp at h
      | some shown =>
        rw [hshow] at h
        cases hrest : processEntries cfg c getFirst (i + 1) l with
        | none => rw [hrest] at h; simp at h
        | some rest =>
          rw [hrest] at h
          simp at h
          subst h
          have hs : fetchCalls shown = [] := by
            by_cases hw : wellFormed rle
            · obtain ⟨tr, htr, _, hf⟩ := showRawLogEntry_wellFormed cfg c rle hw
              rw [hshow] at htr
              cases htr
              exact hf
            · unfold wellFormed at hw
              push_neg at hw
              simp [showRawLogEntry, hw.1, hw.2] at hshow
          rw [fetchCalls_append, hs, ih (i + 1) rest hrest]
          rfl

/-! ## Properties of the sampling loop (main.go 115-144) -/

theorem samplingLoop_done (cfg : Config) (c : Collab) (logURI : String) (treeSize : Nat)
    (target : Int) (fuel k : Nat) (p : Int) (h : ¬ p < target) :
    samplingLoop cfg c logURI treeSize target fuel k p =
      some ⟨[], LoopExit.conditionFalse, p, 0⟩ := by
  cases fuel <;> simp [samplingLoop, h]

theorem samplingLoop_draw_panic (cfg : Config) (c : Collab) (logURI : String) (treeSize : Nat)
    (target : Int) (fuel k : Nat) (p : Int) (h : p < target)
    (hdraw : calcRand (int64OfUint64 treeSize) (c.draw k (int64OfUint64 treeSize)) = none) :
    samplingLoop cfg c logURI treeSize target (fuel + 1) k p =
      some ⟨[], LoopExit.panicked, p, 1⟩ := by
  simp [samplingLoop, h, hdraw]

/-- A failed batch fetch: the error is written to the run log and to `klog`,
and the loop is left through `return`. -/
theorem samplingLoop_fetch_error (cfg : Config) (c : Collab) (logURI : String) (treeSize : Nat)
    (target : Int) (fuel k : Nat) (p getFirst : Int) (err : GoError) (h : p < target)
    (hdraw : calcRand (int64OfUint64 treeSize) (c.draw k (int64OfUint64 treeSize)) =
      some getFirst)
    (hfetch : c.getRawEntries k getFirst (wrap64 (getFirst + 999)) = Except.error err) :
    samplingLoop cfg c logURI treeSize target (fuel + 1) k p =
      some ⟨Event.getRawEntries getFirst (wrap64 (getFirst + 999))
              :: Event.runLog (RunLogLine.getRawEntriesError err.msg logURI)
              :: exitWithDetails err,
            LoopExit.returnedOnError, p, 1⟩ := by
  simp [samplingLoop, h, hdraw, hfetch]

/-- An empty batch: the "no entries" line is written and the loop is left
through `break`. -/
theorem samplingLoop_empty (cfg : Config) (c : Collab) (logURI : String) (treeSize : Nat)
    (target : Int) (fuel k : Nat) (p getFirst : Int) (h : p < target)
    (hdraw : calcRand (int64OfUint64 treeSize) (c.draw k (int64OfUint64 treeSize)) =
      some getFirst)
    (hfetch : c.getRawEntries k getFirst (wrap64 (getFirst + 999)) = Except.ok []) :
    samplingLoop cfg c logURI treeSize target (fuel + 1) k p =
      some ⟨[Event.getRawEntries getFirst (wrap64 (getFirst + 999)),
             Event.runLog (RunLogLine.noEntriesReturned logURI)],
            LoopExit.brokeNoEntries, p, 1⟩ := by
  simp [samplingLoop, h, hdraw, hfetch]

theorem samplingLoop_batch_panic (cfg : Config) (c : Collab) (logURI : String) (treeSize : Nat)
    (target : Int) (fuel k : Nat) (p getFirst : Int) (entries : List LeafEntry) (h : p < target)
    (hdraw : calcRand (int64OfUint64 treeSize) (c.draw k (int64OfUint64 treeSize)) =
      some getFirst)
    (hfetch : c.getRawEntries k getFirst (wrap64 (getFirst + 999)) = Except.ok entries)
    (hne : entries ≠ [])
    (hproc : processEntries cfg c getFirst 0 entries = none) :
    samplingLoop cfg c logURI treeSize target (fuel + 1) k p =
      some ⟨[Event.getRawEntries getFirst (wrap64 (getFirst + 999))],
            LoopExit.panicked, p, 1⟩ := by
  have hlen : ¬ entries.length = 0 := by
    intro h0; exact hne (List.length_eq_zero.mp h0)
  simp [samplingLoop, h, hdraw, hfetch, hlen, hproc]

/-- A non-empty batch: its effects are followed by the progress update, the
entry count is raised by the length of the batch, and the loop goes on. -/
theorem samplingLoop_batch (cfg : Config) (c : Collab) (logURI : String) (treeSize : Nat)
    (target : Int) (fuel k : Nat) (p getFirst : Int) (entries : List LeafEntry)
    (evs : List Event) (h : p < target)
    (hdraw : calcRand (int64OfUint64 treeSize) (c.draw k (int64OfUint64 treeSize)) =
      some getFirst)
    (hfetch : c.getRawEntries k getFirst (wrap64 (getFirst + 999)) = Except.ok entries)
    (hne : entries ≠ [])
    (hproc : processEntries cfg c getFirst 0 entries = some evs) :
    samplingLoop cfg c logURI treeSize target (fuel + 1) k p =
      (samplingLoop cfg c logURI treeSize target fuel (k + 1) (p + (entries.length : Int))).map
        (fun r => ⟨Event.getRawEntries getFirst (wrap64 (getFirst + 999))
                    :: (evs ++ Event.barSet (p + (entries.length : Int)) :: r.trace),
                   r.exit, r.logReturnedEntries, r.iterations + 1⟩) := by
  have hlen : ¬ entries.length = 0 := by
    intro h0; exact hne (List.length_eq_zero.mp h0)
  simp only [samplingLoop, h, if_true, hdraw, hfetch, hlen, if_false, hproc]
  cases samplingLoop cfg c logURI treeSize target fuel (k + 1) (p + (entries.length : Int)) <;> rfl

/-- Termination with a bound: with at least `target - p` loop bodies allowed
the loop returns, after at most `target - p` bodies, and after at most
`j - k + 1` bodies when the body numbered `j` stops. -/
theorem samplingLoop_terminates (cfg : Config) (c : Collab) (logURI : String) (treeSize : Nat)
    (target : Int) :
    ∀ (fuel k : Nat) (p : Int), (target - p).toNat ≤ fuel →
      ∃ r, samplingLoop cfg c logURI treeSize target fuel k p = some r ∧
        r.iterations ≤ (target - p).toNat ∧
        (∀ j, k ≤ j → fetchStops c treeSize j = true → r.iterations ≤ j - k + 1) := by
  intro fuel
  induction fuel with
  | zero =>
    intro k p hfuel
    have h : ¬ p < target := by omega
    exact ⟨_, samplingLoop_done cfg c logURI treeSize target 0 k p h, by simp, by simp⟩
  | succ fuel ih =>
    intro k p hfuel
    by_cases h : p < target
    · have hpos : 1 ≤ (target - p).toNat := by omega
      cases hdraw : calcRand (int64OfUint64 treeSize) (c.draw k (int64OfUint64 treeSize)) with
      | none =>
        exact ⟨_, samplingLoop_draw_panic cfg c logURI treeSize target fuel k p h hdraw,
          hpos, fun j hj _ => by simp⟩
      | some getFirst =>
        cases hfetch : c.getRawEntries k getFirst (wrap64 (getFirst + 999)) with
        | error err =>
          exact ⟨_, samplingLoop_fetch_error cfg c logURI treeSize target fuel k p getFirst err
            h hdraw hfetch, hpos, fun j hj _ => by simp⟩
        | ok entries =>
          by_cases hne : entries = []
          · subst hne
            exact ⟨_, samplingLoop_empty cfg c logURI treeSize target fuel k p getFirst
              h hdraw hfetch, hpos, fun j hj _ => by simp⟩
          · cases hproc : processEntries cfg c getFirst 0 entries with
            | none =>
              exact ⟨_, samplingLoop_batch_panic cfg c logURI treeSize target fuel k p getFirst
                entries h hdraw hfetch hne hproc, hpos, fun j hj _ => by simp⟩
            | some evs =>
              have hlen : 1 ≤ entries.length := by
                cases entries with
                | nil => exact absurd rfl hne
                | cons a l => simp
              obtain ⟨r, hr, hit, hstop⟩ := ih (k + 1) (p + (entries.length : Int)) (by omega)
              refine ⟨⟨Event.getRawEntries getFirst (wrap64 (getFirst + 999))
                  :: (evs ++ Event.barSet (p + (entries.length : Int)) :: r.trace),
                r.exit, r.logReturnedEntries, r.iterations + 1⟩, ?_, ?_, ?_⟩
              · rw [samplingLoop_batch cfg c logURI treeSize target fuel k p getFirst entries evs
                  h hdraw hfetch hne hproc, hr]
                rfl
              · simp only
                omega
              · intro j hj hs
                simp only
                rcases Nat.eq_or_lt_of_le hj with heq | hlt
                · subst heq
                  have hl0 : ¬ entries.length = 0 := by omega
                  simp [fetchStops, hdraw, hfetch, hl0] at hs
                · have := hstop j hlt hs
                  omega
    · exact ⟨_, samplingLoop_done cfg c logURI treeSize target (fuel + 1) k p h,
        by simp, by simp⟩

/-- The first batch fetch of a loop that is entered has the sampled range as
arguments. -/
theorem samplingLoop_first_fetch (cfg : Config) (c : Collab) (logURI : String) (treeSize : Nat)
    (target : Int) (fuel k : Nat) (p getFirst : Int) (r : LoopResult) (h : p < target)
    (hdraw : calcRand (int64OfUint64 treeSize) (c.draw k (int64OfUint64 treeSize)) =
      some getFirst)
    (hr : samplingLoop cfg c logURI treeSize target fuel k p = some r) :
    (fetchCalls r.trace).head? = some (getFirst, wrap64 (getFirst + 999)) := by
  cases fuel with
  | zero => simp [samplingLoop, h] at hr
  | succ fuel =>
    cases hfetch : c.getRawEntries k getFirst (wrap64 (getFirst + 999)) with
    | error err =>
      rw [samplingLoop_fetch_error cfg c logURI treeSize target fuel k p getFirst err
        h hdraw hfetch] at hr
      cases hr
      rfl
    | ok entries =>
      by_cases hne : entries = []
      · subst hne
        rw [samplingLoop_empty cfg c logURI treeSize target fuel k p getFirst
          h hdraw hfetch] at hr
        cases hr
        rfl
      · cases hproc : processEntries cfg c getFirst 0 entries with
        | none =>
          rw [samplingLoop_batch_panic cfg c logURI treeSize target fuel k p getFirst
            entries h hdraw hfetch hne hproc] at hr
          cases hr
          rfl
        | some evs =>
          rw [samplingLoop_batch cfg c logURI treeSize target fuel k p getFirst entries evs
            h hdraw hfetch hne hproc] at hr
          cases hrec : samplingLoop cfg c logURI treeSize target fuel (k + 1)
              (p + (entries.length : Int)) with
          | none => rw [hrec] at hr; simp at hr
          | some r2 =>
            rw [hrec] at hr
            simp only [Option.map_some'] at hr
            cases hr
            rfl

/-! ## Properties of the worker (main.go 78-148) -/

theorem head_append_of_head {α : Type} (a b : List α) (x : α) (h : a.head? = some x) :
    (a ++ b).head? = some x := by
  cases a with
  | nil => simp at h
  | cons y ys => simpa using h

/-- Tree-head failure: one line on standard output, nothing else. -/
theorem runGetEntries_sth_error (cfg : Config) (c : Collab) (logURI : String) (fuel : Nat)
    (err : GoError) (h : c.getSTH = Except.error err) :
    runGetEntries cfg c logURI fuel =
      some ⟨[Event.getSTH, Event.stdout ("STH ERROR FROM: " ++ logURI ++ "\n")],
            WorkerExit.sthFailed, 0⟩ := by
  simp [runGetEntries, h]

/-- With at least `target` loop bodies allowed the worker returns. -/
theorem runGetEntries_total (cfg : Config) (c : Collab) (logURI : String) (fuel : Nat)
    (treeSize : Nat) (h : c.getSTH = Except.ok treeSize) (hfuel : entriesPerLog treeSize ≤ fuel) :
    ∃ r, runGetEntries cfg c logURI fuel = some r := by
  obtain ⟨r, hr, _, _⟩ := samplingLoop_terminates cfg c logURI treeSize
    (entriesPerLog treeSize : Int) fuel 0 0 (by omega)
  simp only [runGetEntries, h, hr]
  cases r.exit <;> exact ⟨_, rfl⟩

/-- The worker's first batch fetch has the sampled range as arguments. -/
theorem runGetEntries_first_fetch (cfg : Config) (c : Collab) (logURI : String) (fuel : Nat)
    (treeSize : Nat) (getFirst : Int) (r : WorkerResult)
    (h : c.getSTH = Except.ok treeSize) (hpos : 0 < entriesPerLog treeSize)
    (hdraw : calcRand (int64OfUint64 treeSize) (c.draw 0 (int64OfUint64 treeSize)) =
      some getFirst)
    (hr : runGetEntries cfg c logURI fuel = some r) :
    (fetchCalls r.trace).head? = some (getFirst, wrap64 (getFirst + 999)) := by
  simp only [runGetEntries, h] at hr
  cases hl : samplingLoop cfg c logURI treeSize (entriesPerLog treeSize : Int) fuel 0 0 with
  | none => rw [hl] at hr; simp at hr
  | some lr =>
    have hf := samplingLoop_first_fetch cfg c logURI treeSize (entriesPerLog treeSize : Int)
      fuel 0 0 getFirst lr (by omega) hdraw hl
    rw [hl] at hr
    simp only at hr
    cases he : lr.exit <;> rw [he] at hr <;> simp only [Option.some.injEq] at hr <;>
      subst hr <;> simp only [fetchCalls] <;>
      first
        | exact hf
        | (rw [fetchCalls_append]; exact head_append_of_head _ _ _ hf)

/-- An empty first batch: the worker writes the "no entries" line, leaves the
loop through `break`, and then writes the summary line. -/
theorem runGetEntries_exhausted (cfg : Config) (c : Collab) (logURI : String) (fuel : Nat)
    (treeSize : Nat) (getFirst : Int)
    (h : c.getSTH = Except.ok treeSize) (hpos : 0 < entriesPerLog treeSize)
    (hdraw : calcRand (int64OfUint64 treeSize) (c.draw 0 (int64OfUint64 treeSize)) =
      some getFirst)
    (hfetch : c.getRawEntries 0 getFirst (wrap64 (getFirst + 999)) = Except.ok []) :
    runGetEntries cfg c logURI (fuel + 1) =
      some ⟨[Event.getSTH,
             Event.getRawEntries getFirst (wrap64 (getFirst + 999)),
             Event.runLog (RunLogLine.noEntriesReturned logURI),
             Event.runLog (RunLogLine.finished logURI c.now 0),
             Event.barFinish],
            WorkerExit.finished true, 0⟩ := by
  have hl := samplingLoop_empty cfg c logURI treeSize (entriesPerLog treeSize : Int) fuel 0 0
    getFirst (by omega) hdraw hfetch
  simp [runGetEntries, h, hl]

/-- A failed first batch fetch: the error goes to the run log and to `klog`,
no further fetch is made and no summary line is written. -/
theorem runGetEntries_fetch_error (cfg : Config) (c : Collab) (logURI : String) (fuel : Nat)
    (treeSize : Nat) (getFirst : Int) (err : GoError)
    (h : c.getSTH = Except.ok treeSize) (hpos : 0 < entriesPerLog treeSize)
    (hdraw : calcRand (int64OfUint64 treeSize) (c.draw 0 (int64OfUint64 treeSize)) =
      some getFirst)
    (hfetch : c.getRawEntries 0 getFirst (wrap64 (getFirst + 999)) = Except.error err) :
    runGetEntries cfg c logURI (fuel + 1) =
      some ⟨Event.getSTH
              :: Event.getRawEntries getFirst (wrap64 (getFirst + 999))
              :: Event.runLog (RunLogLine.getRawEntriesError err.msg logURI)
              :: exitWithDetails err,
            WorkerExit.fetchFailed, 0⟩ := by
  have hl := samplingLoop_fetch_error cfg c logURI treeSize (entriesPerLog treeSize : Int) fuel
    0 0 getFirst err (by omega) hdraw hfetch
  simp [runGetEntries, h, hl]

theorem calcRand_10000_7 : calcRand (int64OfUint64 10000) 7 = some 7 := by
  decide

/-! ## Claims about the worker -/

/-- C5 (exhaustion), at a log of 10,000 entries whose first batch is empty:
the worker ends with no entry processed and no output sink call, but its run
log holds two lines, the "no entries" line followed by the summary line. -/
theorem C5_exhaustion_writes_summary :
    ∃ r, runGetEntries ⟨false, false, false⟩ emptyLogCollab "log" 1 = some r ∧
      r.logReturnedEntries = 0 ∧ sinkCalls r.trace = [] ∧
      runLogLines r.trace =
        [RunLogLine.noEntriesReturned "log", RunLogLine.finished "log" "now" 0] ∧
      (runLogLines r.trace).length ≠ 1 :=
  ⟨_, runGetEntries_exhausted ⟨false, false, false⟩ emptyLogCollab "log" 0 10000 7 rfl
      (entriesPerLog_pos 10000 (by norm_num)) calcRand_10000_7 rfl,
    rfl, rfl, rfl, by decide⟩

/-- C5 (exhaustion), amended: when the target is positive and the first batch
fetch succeeds with zero entries, the worker returns with no entry processed,
makes no output sink call and no further fetch, and writes exactly two lines
to the run log: the "no entries" line, then the summary line with a total of
zero. -/
theorem C5_exhaustion_amended (cfg : Config) (c : Collab) (logURI : String) (fuel : Nat)
    (treeSize : Nat) (getFirst : Int)
    (h : c.getSTH = Except.ok treeSize) (hpos : 0 < entriesPerLog treeSize)
    (hdraw : calcRand (int64OfUint64 treeSize) (c.draw 0 (int64OfUint64 treeSize)) =
      some getFirst)
    (hfetch : c.getRawEntries 0 getFirst (wrap64 (getFirst + 999)) = Except.ok []) :
    ∃ r, runGetEntries cfg c logURI (fuel + 1) = some r ∧
      r.exit = WorkerExit.finished true ∧
      r.logReturnedEntries = 0 ∧
      sinkCalls r.trace = [] ∧
      fetchCalls r.trace = [(getFirst, wrap64 (getFirst + 999))] ∧
      runLogLines r.trace =
        [RunLogLine.noEntriesReturned logURI, RunLogLine.finished logURI c.now 0] :=
  ⟨_, runGetEntries_exhausted cfg c logURI fuel treeSize getFirst h hpos hdraw hfetch,
    rfl, rfl, rfl, rfl, rfl⟩

/-- Witness of `C5_exhaustion_amended`: a log of 10,000 entries whose first
batch is empty. -/
theorem C5_exhaustion_amended_witness :
    emptyLogCollab.getSTH = Except.ok 10000 ∧ 0 < entriesPerLog 10000 ∧
    calcRand (int64OfUint64 10000) (emptyLogCollab.draw 0 (int64OfUint64 10000)) = some 7 ∧
    emptyLogCollab.getRawEntries 0 7 (wrap64 (7 + 999)) = Except.ok [] ∧
    ∃ r, runGetEntries ⟨false, false, false⟩ emptyLogCollab "log" (0 + 1) = some r ∧
      r.exit = WorkerExit.finished true ∧
      r.logReturnedEntries = 0 ∧
      sinkCalls r.trace = [] ∧
      fetchCalls r.trace = [(7, wrap64 (7 + 999))] ∧
      runLogLines r.trace =
        [RunLogLine.noEntriesReturned "log",
         RunLogLine.finished "log" emptyLogCollab.now 0] :=
  ⟨rfl, entriesPerLog_pos 10000 (by norm_num), calcRand_10000_7, rfl,
    C5_exhaustion_amended ⟨false, false, false⟩ emptyLogCollab "log" 0 10000 7 rfl
      (entriesPerLog_pos 10000 (by norm_num)) calcRand_10000_7 rfl⟩

/-- C7 (loop termination): for every target and every collaborator, the
sampling loop started at zero returns as soon as `target` loop bodies are
allowed; it runs at most `target` bodies, and at most `j + 1` bodies when the
response to fetch number `j` is an error or an empty batch. -/
theorem C7_loop_terminates (cfg : Config) (c : Collab) (logURI : String) (treeSize : Nat)
    (target : Int) (fuel : Nat) (hfuel : target.toNat ≤ fuel) :
    ∃ r, samplingLoop cfg c logURI treeSize target fuel 0 0 = some r ∧
      r.iterations ≤ target.toNat ∧
      (∀ j, fetchStops c treeSize j = true → r.iterations ≤ j + 1) := by
  obtain ⟨r, hr, hit, hstop⟩ := samplingLoop_terminates cfg c logURI treeSize target fuel 0 0
    (by simpa using hfuel)
  refine ⟨r, hr, by simpa using hit, ?_⟩
  intro j hj
  have := hstop j (Nat.zero_le j) hj
  simpa using this

/-- Witness of `C7_loop_terminates`: target 10,000 on a log whose batches are
empty. -/
theorem C7_loop_terminates_witness :
    (10000 : Int).toNat ≤ 10000 ∧
    ∃ r, samplingLoop ⟨false, false, false⟩ emptyLogCollab "log" 10000 10000 10000 0 0 = some r ∧
      r.iterations ≤ (10000 : Int).toNat ∧
      (∀ j, fetchStops emptyLogCollab 10000 j = true → r.iterations ≤ j + 1) :=
  ⟨by decide, C7_loop_terminates ⟨false, false, false⟩ emptyLogCollab "log" 10000 10000 10000
    (by decide)⟩

/-- C8 (per-log fatal errors), at a worker whose tree-head fetch fails: the
worker issues no batch fetch and calls no output sink, but it writes nothing
to the run log either; its only output is the line "STH ERROR FROM: log" on
standard output, which does not carry the error. -/
theorem C8_sth_failure_not_in_run_log :
    ∃ r, runGetEntries ⟨false, false, false⟩ sthFailCollab "log" 1 = some r ∧
      r.trace = [Event.getSTH, Event.stdout "STH ERROR FROM: log\n"] ∧
      runLogLines r.trace = [] ∧ fetchCalls r.trace = [] ∧ sinkCalls r.trace = [] :=
  ⟨_, runGetEntries_sth_error ⟨false, false, false⟩ sthFailCollab "log" 1 _ rfl,
    by decide, rfl, rfl, rfl⟩

/-- C9 (text-mode artifact name), at timestamp key "20240101000000" and serial
number 26: the name created is built from the hexadecimal encoding of the
text "1a", not from "1a" itself. -/
theorem C9_text_name_double_hex :
    showParsedCertFileName "20240101000000" 26 = "xxx\\20240101000000-3161.pem" ∧
      textNameSpec "20240101000000" 26 = "xxx\\20240101000000-1a.pem" := by
  constructor <;> decide

/-- C10 (small-tree edge case): for a tree size between 1 and 999 and a draw
in range, `calcRand` returns the draw less 1000, a negative number, and the
first batch fetch of the worker is made with that number as `first` and with
`first + 999` as `last`. -/
theorem C10_small_tree_negative_first (cfg : Config) (c : Collab) (logURI : String)
    (treeSize fuel : Nat) (h0 : 0 < treeSize) (h1 : treeSize < 1000)
    (hsth : c.getSTH = Except.ok treeSize)
    (hd0 : 0 ≤ c.draw 0 (int64OfUint64 treeSize))
    (hd1 : c.draw 0 (int64OfUint64 treeSize) < (treeSize : Int))
    (hfuel : treeSize ≤ fuel) :
    calcRand (int64OfUint64 treeSize) (c.draw 0 (int64OfUint64 treeSize)) =
      some (c.draw 0 (int64OfUint64 treeSize) - 1000) ∧
    c.draw 0 (int64OfUint64 treeSize) - 1000 < 0 ∧
    ∃ r, runGetEntries cfg c logURI fuel = some r ∧
      (fetchCalls r.trace).head? =
        some (c.draw 0 (int64OfUint64 treeSize) - 1000,
              c.draw 0 (int64OfUint64 treeSize) - 1000 + 999) := by
  have hcast : int64OfUint64 treeSize = (treeSize : Int) := int64OfUint64_of_lt treeSize (by omega)
  have hcalc : calcRand (int64OfUint64 treeSize) (c.draw 0 (int64OfUint64 treeSize)) =
      some (c.draw 0 (int64OfUint64 treeSize) - 1000) := by
    have := calcRand_eq (int64OfUint64 treeSize) (c.draw 0 (int64OfUint64 treeSize))
      (by omega) (by omega) hd0 (by omega)
    rw [this, if_pos (by omega)]
  have htarget : entriesPerLog treeSize = treeSize := entriesPerLog_small treeSize (by omega)
  refine ⟨hcalc, by omega, ?_⟩
  obtain ⟨r, hr⟩ := runGetEntries_total cfg c logURI fuel treeSize hsth (by omega)
  refine ⟨r, hr, ?_⟩
  have hf := runGetEntries_first_fetch cfg c logURI fuel treeSize _ r hsth (by omega) hcalc hr
  rw [hf, wrap64_of_range _ (by omega) (by omega)]

/-- Witness of `C10_small_tree_negative_first`: tree size 500, draw 7. -/
theorem C10_small_tree_negative_first_witness :
    0 < 500 ∧ 500 < 1000 ∧ smallLogCollab.getSTH = Except.ok 500 ∧
    0 ≤ smallLogCollab.draw 0 (int64OfUint64 500) ∧
    smallLogCollab.draw 0 (int64OfUint64 500) < ((500 : Nat) : Int) ∧ 500 ≤ 500 ∧
    calcRand (int64OfUint64 500) (smallLogCollab.draw 0 (int64OfUint64 500)) =
      some (smallLogCollab.draw 0 (int64OfUint64 500) - 1000) ∧
    smallLogCollab.draw 0 (int64OfUint64 500) - 1000 < 0 ∧
    ∃ r, runGetEntries ⟨false, false, false⟩ smallLogCollab "log" 500 = some r ∧
      (fetchCalls r.trace).head? =
        some (smallLogCollab.draw 0 (int64OfUint64 500) - 1000,
              smallLogCollab.draw 0 (int64OfUint64 500) - 1000 + 999) :=
  ⟨by decide, by decide, rfl, by decide, by decide, by decide,
    C10_small_tree_negative_first ⟨false, false, false⟩ smallLogCollab "log" 500 500
      (by decide) (by decide) rfl (by decide) (by decide) (by decide)⟩

/-- The output sink calls of a batch are those of the classifier on the
decoded entries, in batch order. -/
theorem sinkCalls_batchTrace (cfg : Config) (c : Collab)
    (ds : List (Int × Except GoError RawLogEntry)) :
    sinkCalls (batchTrace cfg c ds) =
      (decodedOf ds).flatMap (fun rle => sinkCalls ((showRawLogEntry cfg c rle).getD [])) := by
  induction ds with
  | nil => rfl
  | cons d ds ih =>
    obtain ⟨idx, res⟩ := d
    cases res with
    | error err => simp [batchTrace, sinkCalls, decodedOf, ih]
    | ok rle => simp [batchTrace, decodedOf, sinkCalls_append, ih]

/-- The entry count a loop ends with is at least the one it started with. -/
theorem samplingLoop_count_ge (cfg : Config) (c : Collab) (logURI : String) (treeSize : Nat)
    (target : Int) :
    ∀ (fuel k : Nat) (p : Int) (r : LoopResult),
      samplingLoop cfg c logURI treeSize target fuel k p = some r → p ≤ r.logReturnedEntries := by
  intro fuel
  induction fuel with
  | zero =>
    intro k p r hr
    by_cases h : p < target
    · simp [samplingLoop, h] at hr
    · rw [samplingLoop_done cfg c logURI treeSize target 0 k p h] at hr
      cases hr
      exact le_refl p
  | succ fuel ih =>
    intro k p r hr
    by_cases h : p < target
    · cases hdraw : calcRand (int64OfUint64 treeSize) (c.draw k (int64OfUint64 treeSize)) with
      | none =>
        rw [samplingLoop_draw_panic cfg c logURI treeSize target fuel k p h hdraw] at hr
        cases hr
        exact le_refl p
      | some getFirst =>
        cases hfetch : c.getRawEntries k getFirst (wrap64 (getFirst + 999)) with
        | error err =>
          rw [samplingLoop_fetch_error cfg c logURI treeSize target fuel k p getFirst err
            h hdraw hfetch] at hr
          cases hr
          exact le_refl p
        | ok entries =>
          by_cases hne : entries = []
          · subst hne
            rw [samplingLoop_empty cfg c logURI treeSize target fuel k p getFirst
              h hdraw hfetch] at hr
            cases hr
            exact le_refl p
          · cases hproc : processEntries cfg c getFirst 0 entries with
            | none =>
              rw [samplingLoop_batch_panic cfg c logURI treeSize target fuel k p getFirst
                entries h hdraw hfetch hne hproc] at hr
              cases hr
              exact le_refl p
            | some evs =>
              rw [samplingLoop_batch cfg c logURI treeSize target fuel k p getFirst entries evs
                h hdraw hfetch hne hproc] at hr
              cases hrec : samplingLoop cfg c logURI treeSize target fuel (k + 1)
                  (p + (entries.length : Int)) with
              | none => rw [hrec] at hr; simp at hr
              | some r2 =>
                have hge := ih (k + 1) (p + (entries.length : Int)) r2 hrec
                rw [hrec] at hr
                simp only [Option.map_some'] at hr
                cases hr
                simp only
                omega
    · rw [samplingLoop_done cfg c logURI treeSize target (fuel + 1) k p h] at hr
      cases hr
      exact le_refl p

/-- C6 (per-leaf decode failure): for a non-empty batch whose decoded entries
are well formed, the inner loop returns the batch trace: one "failed to
unmarshal" line, with index `getFirst + offset`, for each leaf that fails to
decode, and the classifier run on each decoded entry, in batch order; the
skipped and the classified leaves together are the whole batch.  With enough
loop bodies allowed for the rest of the run, the loop returns: the rest of the
run starts from the entry count raised by the length of the batch, and the
result of the loop is the fetch, the batch trace and the progress update,
followed by the rest of the run, whose final entry count is at least the
raised one. -/
theorem C6_decode_failure_skipped (cfg : Config) (c : Collab) (logURI : String)
    (treeSize : Nat) (target : Int) (fuel k : Nat) (p getFirst : Int)
    (entries : List LeafEntry) (h : p < target)
    (hdraw : calcRand (int64OfUint64 treeSize) (c.draw k (int64OfUint64 treeSize)) =
      some getFirst)
    (hfetch : c.getRawEntries k getFirst (wrap64 (getFirst + 999)) = Except.ok entries)
    (hne : entries ≠ [])
    (hwf : ∀ rle ∈ decodedOf (decodeBatch c getFirst entries), wellFormed rle)
    (hfuel : (target - (p + (entries.length : Int))).toNat ≤ fuel) :
    processEntries cfg c getFirst 0 entries =
      some (batchTrace cfg c (decodeBatch c getFirst entries)) ∧
    failedLines (batchTrace cfg c (decodeBatch c getFirst entries)) =
      skippedOf (decodeBatch c getFirst entries) ∧
    sinkCalls (batchTrace cfg c (decodeBatch c getFirst entries)) =
      (decodedOf (decodeBatch c getFirst entries)).flatMap
        (fun rle => sinkCalls ((showRawLogEntry cfg c rle).getD [])) ∧
    (skippedOf (decodeBatch c getFirst entries)).length +
      (decodedOf (decodeBatch c getFirst entries)).length = entries.length ∧
    ∃ rest,
      samplingLoop cfg c logURI treeSize target fuel (k + 1) (p + (entries.length : Int)) =
        some rest ∧
      samplingLoop cfg c logURI treeSize target (fuel + 1) k p =
        some ⟨Event.getRawEntries getFirst (wrap64 (getFirst + 999))
                :: (batchTrace cfg c (decodeBatch c getFirst entries)
                    ++ Event.barSet (p + (entries.length : Int)) :: rest.trace),
              rest.exit, rest.logReturnedEntries, rest.iterations + 1⟩ ∧
      p + (entries.length : Int) ≤ rest.logReturnedEntries := by
  have hproc := processEntries_eq cfg c getFirst entries hwf
  refine ⟨hproc, failedLines_batchTrace cfg c _, sinkCalls_batchTrace cfg c _, ?_, ?_⟩
  · rw [skippedOf_length_add, decodeBatch_length]
  · obtain ⟨rest, hrest, _, _⟩ := samplingLoop_terminates cfg c logURI treeSize target fuel
      (k + 1) (p + (entries.length : Int)) hfuel
    refine ⟨rest, hrest, ?_, samplingLoop_count_ge cfg c logURI treeSize target fuel (k + 1)
      (p + (entries.length : Int)) rest hrest⟩
    rw [samplingLoop_batch cfg c logURI treeSize target fuel k p getFirst entries _ h hdraw
      hfetch hne hproc, hrest]
    rfl

/-- The decode outcomes of the first batch of `threeLeafCollab`. -/
theorem decodeBatch_threeLeaves :
    skippedOf (decodeBatch threeLeafCollab 7 threeLeaves) =
      [(8, "failed to unmarshal MerkleTreeLeaf")] ∧
    (decodedOf (decodeBatch threeLeafCollab 7 threeLeaves)).length = 2 := by
  decide

/-- Witness of `C6_decode_failure_skipped`: a batch of three leaves starting at
index 7 whose second leaf does not decode, with target 10,000. -/
theorem C6_decode_failure_skipped_witness :
    (0 : Int) < 10000 ∧
    calcRand (int64OfUint64 10000) (threeLeafCollab.draw 0 (int64OfUint64 10000)) = some 7 ∧
    threeLeafCollab.getRawEntries 0 7 (wrap64 (7 + 999)) = Except.ok threeLeaves ∧
    threeLeaves ≠ [] ∧
    (∀ rle ∈ decodedOf (decodeBatch threeLeafCollab 7 threeLeaves), wellFormed rle) ∧
    ((10000 : Int) - (0 + (threeLeaves.length : Int))).toNat ≤ 10000 ∧
    (processEntries ⟨false, false, false⟩ threeLeafCollab 7 0 threeLeaves =
      some (batchTrace ⟨false, false, false⟩ threeLeafCollab
        (decodeBatch threeLeafCollab 7 threeLeaves)) ∧
    failedLines (batchTrace ⟨false, false, false⟩ threeLeafCollab
        (decodeBatch threeLeafCollab 7 threeLeaves)) =
      skippedOf (decodeBatch threeLeafCollab 7 threeLeaves) ∧
    sinkCalls (batchTrace ⟨false, false, false⟩ threeLeafCollab
        (decodeBatch threeLeafCollab 7 threeLeaves)) =
      (decodedOf (decodeBatch threeLeafCollab 7 threeLeaves)).flatMap
        (fun rle => sinkCalls
          ((showRawLogEntry ⟨false, false, false⟩ threeLeafCollab rle).getD [])) ∧
    (skippedOf (decodeBatch threeLeafCollab 7 threeLeaves)).length +
      (decodedOf (decodeBatch threeLeafCollab 7 threeLeaves)).length = threeLeaves.length ∧
    ∃ rest,
      samplingLoop ⟨false, false, false⟩ threeLeafCollab "log" 10000 10000 10000 (0 + 1)
          (0 + (threeLeaves.length : Int)) = some rest ∧
      samplingLoop ⟨false, false, false⟩ threeLeafCollab "log" 10000 10000 (10000 + 1) 0 0 =
        some ⟨Event.getRawEntries 7 (wrap64 (7 + 999))
                :: (batchTrace ⟨false, false, false⟩ threeLeafCollab
                      (decodeBatch threeLeafCollab 7 threeLeaves)
                    ++ Event.barSet (0 + (threeLeaves.length : Int)) :: rest.trace),
              rest.exit, rest.logReturnedEntries, rest.iterations + 1⟩ ∧
      0 + (threeLeaves.length : Int) ≤ rest.logReturnedEntries) :=
  ⟨by decide, calcRand_10000_7, rfl, by decide, by decide, by decide,
    C6_decode_failure_skipped ⟨false, false, false⟩ threeLeafCollab "log" 10000 10000 10000 0 0 7
      threeLeaves (by decide) calcRand_10000_7 rfl (by decide) (by decide) (by decide)⟩

end CtHarvester
